import Mathlib

/-!
Verification of the version-resolution logic in `docs/conf.py` of the
pt-go repository.  The only non-declarative code in that file is the
function `get_version`, which tries, in order:

1. each candidate `VERSION` file in a fixed ordered list (existence check,
   then read and return the stripped contents);
2. the subprocess `git describe --tags` (return stripped stdout on exit 0);
3. the hardcoded literal `'1.0.36'`.

We embed the function shallowly: the environment supplies the answers of
`os.path.exists`, of a file read (which may raise), and of the
`subprocess.run` call (which may raise, or return an exit status and
stdout).  The embedding returns an `Except Unit String` (`.error` models a
propagated Python exception) together with a trace of the external effects
performed, so that frame claims (what is read, what is spawned, what is
never written) can be stated.
-/

namespace PTConf

/-- The whitespace characters stripped by Python `str.strip()` on ASCII
text: space, tab, newline, carriage return, vertical tab, form feed. -/
def pyWhitespace (c : Char) : Bool :=
  c = ' ' || c = '\t' || c = '\n' || c = '\r' || c = '\x0b' || c = '\x0c'

/-- Python `s.strip()`: remove leading and trailing whitespace. -/
def pyStrip (s : String) : String :=
  String.mk (((s.data.dropWhile pyWhitespace).reverse.dropWhile pyWhitespace).reverse)

/-- Result of a completed `subprocess.run` call: exit status and captured
standard output (`capture_output=True, text=True`). -/
structure SubprocResult where
  returncode : Int
  stdout : String
  deriving DecidableEq, Repr

/-- One observable external effect of the configuration code. -/
inductive Effect where
  | pathCheck : String → Effect
  | fileRead : String → Effect
  | fileWrite : String → Effect
  | spawn : List String → Effect
  deriving DecidableEq, Repr

/-- The environment a run of `docs/conf.py` executes in: the directory of
the file (`os.path.dirname(__file__)`), the absolute parent directory
(`os.path.abspath('..')`), the answers of `os.path.exists`, the outcome of
opening and reading a file (`.error` models a raised `OSError` or decode
error), and the outcome of `subprocess.run(['git','describe','--tags'])`
(`.error` models a raised exception such as `FileNotFoundError`). -/
structure Env where
  dirname : String
  parentAbs : String
  pathExists : String → Bool
  readFile : String → Except Unit String
  gitDescribe : Except Unit SubprocResult

/-- `os.path.join` for the plain relative components used in `conf.py`. -/
def os_path_join (a b : String) : String := a ++ "/" ++ b

/-- The fixed ordered candidate list `version_files` of `get_version`. -/
def version_files (e : Env) : List String :=
  [ os_path_join e.dirname "VERSION"
  , os_path_join (os_path_join e.dirname "..") "VERSION"
  , os_path_join e.parentAbs "VERSION" ]

/-- The argument vector of the subprocess call in `get_version`. -/
def gitCmd : List String := ["git", "describe", "--tags"]

/-- The hardcoded fallback literal on the last line of `get_version`. -/
def fallbackVersion : String := "1.0.36"

/-- The `for vf in version_files:` loop of `get_version`: check existence
of each candidate in order; on the first existing one, read it and return
the stripped contents (or propagate the read exception).  Returns `none`
when the loop falls through, paired with the trace of effects. -/
def tryFiles (e : Env) : List String → Option (Except Unit String) × List Effect
  | [] => (none, [])
  | vf :: rest =>
    if e.pathExists vf then
      match e.readFile vf with
      | Except.ok s => (some (Except.ok (pyStrip s)), [Effect.pathCheck vf, Effect.fileRead vf])
      | Except.error u => (some (Except.error u), [Effect.pathCheck vf, Effect.fileRead vf])
    else
      let r := tryFiles e rest
      (r.1, Effect.pathCheck vf :: r.2)

/-- `get_version` of `docs/conf.py`: the VERSION-file loop, then the
guarded `git describe --tags` subprocess (its exceptions swallowed by the
bare `except:`), then the hardcoded fallback. -/
def get_version (e : Env) : Except Unit String × List Effect :=
  match tryFiles e (version_files e) with
  | (some r, tr) => (r, tr)
  | (none, tr) =>
    match e.gitDescribe with
    | Except.ok res =>
      if res.returncode = 0 then
        (Except.ok (pyStrip res.stdout), tr ++ [Effect.spawn gitCmd])
      else
        (Except.ok fallbackVersion, tr ++ [Effect.spawn gitCmd])
    | Except.error _ => (Except.ok fallbackVersion, tr ++ [Effect.spawn gitCmd])

/-- The configuration variables bound by the module-level code of
`docs/conf.py` that depend on `get_version`. -/
structure Config where
  project : String
  author : String
  version : String
  release : String
  deriving DecidableEq, Repr

/-- The module-level assignments of `docs/conf.py`: `version =
get_version()` followed by `release = version`.  If `get_version` raises,
the module fails to load and no configuration is produced. -/
def conf (e : Env) : Except Unit Config × List Effect :=
  match get_version e with
  | (Except.ok v, tr) =>
    (Except.ok { project := "PT", author := "Hadi Cahyadi", version := v, release := v }, tr)
  | (Except.error u, tr) => (Except.error u, tr)

/-! ### Characterisation of the VERSION-file loop -/

/-- The outcome of the loop is determined by the first existing candidate:
`none` if no candidate exists, otherwise the read of that candidate,
stripped on success. -/
theorem tryFiles_fst (e : Env) :
    ∀ l : List String, (tryFiles e l).1 =
      (l.find? e.pathExists).map (fun vf =>
        match e.readFile vf with
        | Except.ok s => Except.ok (pyStrip s)
        | Except.error u => Except.error u) := by
  intro l
  induction l with
  | nil => simp [tryFiles]
  | cons vf rest ih =>
    by_cases h : e.pathExists vf
    · cases hr : e.readFile vf <;>
        simp [tryFiles, h, hr, List.find?_cons_of_pos]
    · simp only [Bool.not_eq_true] at h
      simp [tryFiles, h, List.find?_cons_of_neg, ih]

/-- The loop reads only the first existing candidate file. -/
theorem tryFiles_read_mem (e : Env) :
    ∀ (l : List String) (p : String),
      Effect.fileRead p ∈ (tryFiles e l).2 → l.find? e.pathExists = some p := by
  intro l
  induction l with
  | nil => intro p hp; simp [tryFiles] at hp
  | cons vf rest ih =>
    intro p hp
    by_cases h : e.pathExists vf
    · cases hr : e.readFile vf <;>
        · simp [tryFiles, h, hr] at hp
          simp [List.find?_cons_of_pos, h, hp]
    · simp only [Bool.not_eq_true] at h
      simp [tryFiles, h] at hp
      rw [List.find?_cons_of_neg _ (by simp [h])]
      exact ih p hp

/-- Every effect of the loop is an existence check or a file read. -/
theorem tryFiles_effects (e : Env) :
    ∀ (l : List String) (x : Effect), x ∈ (tryFiles e l).2 →
      (∃ p, x = Effect.pathCheck p) ∨ (∃ p, x = Effect.fileRead p) := by
  intro l
  induction l with
  | nil => intro x hx; simp [tryFiles] at hx
  | cons vf rest ih =>
    intro x hx
    by_cases h : e.pathExists vf
    · cases hr : e.readFile vf <;>
        · simp [tryFiles, h, hr] at hx
          rcases hx with hx | hx
          · exact Or.inl ⟨vf, hx⟩
          · exact Or.inr ⟨vf, hx⟩
    · simp only [Bool.not_eq_true] at h
      simp [tryFiles, h] at hx
      rcases hx with hx | hx
      · exact Or.inl ⟨vf, hx⟩
      · exact ih x hx

/-! ### Concrete environments used as witnesses and counterexamples -/

/-- Every candidate path exists but every read raises, and `git describe`
also raises: the environment of an unreadable or corrupt VERSION file. -/
def envUnreadable : Env :=
  { dirname := "docs", parentAbs := "/repo"
  , pathExists := fun _ => true
  , readFile := fun _ => Except.error ()
  , gitDescribe := Except.error () }

/-- Only the first candidate path exists and it reads as the text
`2.3.4` followed by a newline. -/
def envFirstFile : Env :=
  { dirname := "docs", parentAbs := "/repo"
  , pathExists := fun p => p == "docs/VERSION"
  , readFile := fun _ => Except.ok "2.3.4\n"
  , gitDescribe := Except.error () }

/-- No candidate path exists; `git describe --tags` exits 0 with the
output `v1.2.0` followed by a newline. -/
def envGitOk : Env :=
  { dirname := "docs", parentAbs := "/repo"
  , pathExists := fun _ => false
  , readFile := fun _ => Except.error ()
  , gitDescribe := Except.ok { returncode := 0, stdout := "v1.2.0\n" } }

/-- No candidate path exists; `git describe --tags` exits 128. -/
def envGitFail : Env :=
  { dirname := "docs", parentAbs := "/repo"
  , pathExists := fun _ => false
  , readFile := fun _ => Except.error ()
  , gitDescribe := Except.ok { returncode := 128, stdout := "" } }

/-- No candidate path exists and the subprocess call raises
(e.g. the `git` executable is missing). -/
def envAllFail : Env :=
  { dirname := "docs", parentAbs := "/repo"
  , pathExists := fun _ => false
  , readFile := fun _ => Except.error ()
  , gitDescribe := Except.error () }

/-- Only the first candidate path exists and it reads as whitespace. -/
def envBlankFile : Env :=
  { dirname := "docs", parentAbs := "/repo"
  , pathExists := fun p => p == "docs/VERSION"
  , readFile := fun _ => Except.ok "  \n"
  , gitDescribe := Except.error () }

/-! ### Claims -/

/-- C1 counterexample: in the environment where the first candidate
VERSION file exists but its read raises, `get_version` propagates the
exception instead of returning a string — the file-read branch has no
exception handler. -/
theorem get_version_unreadable_raises :
    (get_version envUnreadable).1 = Except.error () := rfl

/-- C1 (amended): `get_version` returns a string in every environment in
which every existing candidate VERSION file is readable — in particular
whenever no candidate file exists, regardless of how the subprocess
behaves.  (When the first existing candidate is unreadable or corrupt, the
read exception propagates; see the counterexample.) -/
theorem get_version_total_of_readable (e : Env)
    (hr : ∀ vf ∈ version_files e, e.pathExists vf = true → ∃ s, e.readFile vf = Except.ok s) :
    ∃ s, (get_version e).1 = Except.ok s := by
  rcases ht : tryFiles e (version_files e) with ⟨o, tr⟩
  have h1 := tryFiles_fst e (version_files e)
  rw [ht] at h1
  rcases hf : (version_files e).find? e.pathExists with _ | vf
  · rw [hf] at h1
    simp only [Option.map] at h1
    subst h1
    rcases hg : e.gitDescribe with u | res
    · exact ⟨fallbackVersion, by simp [get_version, ht, hg]⟩
    · by_cases hz : res.returncode = 0
      · exact ⟨pyStrip res.stdout, by simp [get_version, ht, hg, hz]⟩
      · exact ⟨fallbackVersion, by simp [get_version, ht, hg, hz]⟩
  · have hmem := List.mem_of_find?_eq_some hf
    have hpos := List.find?_some hf
    rcases hr vf hmem hpos with ⟨s, hread⟩
    rw [hf] at h1
    simp only [Option.map, hread] at h1
    subst h1
    exact ⟨pyStrip s, by simp [get_version, ht]⟩

/-- C1 witness. -/
theorem get_version_total_of_readable_witness :
    ∃ s, (get_version envFirstFile).1 = Except.ok s :=
  get_version_total_of_readable envFirstFile (fun _ _ _ => ⟨"2.3.4\n", rfl⟩)

/-- C2: when some candidate path holds an existing, readable VERSION file
with content `s`, `get_version` returns `s` stripped of surrounding
whitespace; it reads no candidate file other than the first existing one
and spawns no subprocess. -/
theorem get_version_first_file (e : Env) (vf s : String)
    (hfind : (version_files e).find? e.pathExists = some vf)
    (hread : e.readFile vf = Except.ok s) :
    (get_version e).1 = Except.ok (pyStrip s) ∧
    (∀ p, Effect.fileRead p ∈ (get_version e).2 → p = vf) ∧
    (∀ c, Effect.spawn c ∉ (get_version e).2) := by
  rcases ht : tryFiles e (version_files e) with ⟨o, tr⟩
  have h1 := tryFiles_fst e (version_files e)
  rw [ht, hfind] at h1
  simp only [Option.map, hread] at h1
  subst h1
  refine ⟨by simp [get_version, ht], ?_, ?_⟩
  · intro p hp
    have hm := tryFiles_read_mem e (version_files e) p
    rw [ht] at hm
    simp only [get_version, ht] at hp
    have := hm hp
    rw [hfind] at this
    exact (Option.some_inj.mp this).symm
  · intro c hc
    have hcl := tryFiles_effects e (version_files e) (Effect.spawn c)
    rw [ht] at hcl
    simp only [get_version, ht] at hc
    rcases hcl hc with ⟨p, hp⟩ | ⟨p, hp⟩ <;> exact Effect.noConfusion hp

/-- C2 witness. -/
theorem get_version_first_file_witness :
    (get_version envFirstFile).1 = Except.ok "2.3.4" :=
  (get_version_first_file envFirstFile "docs/VERSION" "2.3.4\n" rfl rfl).1

/-- C3: when no candidate VERSION file exists and `git describe --tags`
completes with exit status 0, `get_version` returns the stripped standard
output of the subprocess. -/
theorem get_version_git_ok (e : Env) (r : SubprocResult)
    (hnf : ∀ vf ∈ version_files e, e.pathExists vf = false)
    (hgit : e.gitDescribe = Except.ok r)
    (hrc : r.returncode = 0) :
    (get_version e).1 = Except.ok (pyStrip r.stdout) := by
  rcases ht : tryFiles e (version_files e) with ⟨o, tr⟩
  have h1 := tryFiles_fst e (version_files e)
  rw [ht] at h1
  have hf : (version_files e).find? e.pathExists = none := by
    rw [List.find?_eq_none]
    intro x hx
    simp [hnf x hx]
  rw [hf] at h1
  simp only [Option.map] at h1
  subst h1
  simp [get_version, ht, hgit, hrc]

/-- C3 witness. -/
theorem get_version_git_ok_witness :
    (get_version envGitOk).1 = Except.ok "v1.2.0" :=
  get_version_git_ok envGitOk { returncode := 0, stdout := "v1.2.0\n" }
    (fun _ _ => rfl) rfl rfl

/-- C4: when no candidate VERSION file exists and the subprocess step
fails — the call raises (absent executable) or exits non-zero —
`get_version` returns the hardcoded fallback literal unchanged. -/
theorem get_version_git_fail (e : Env)
    (hnf : ∀ vf ∈ version_files e, e.pathExists vf = false)
    (hfail : e.gitDescribe = Except.error () ∨
      ∃ r, e.gitDescribe = Except.ok r ∧ r.returncode ≠ 0) :
    (get_version e).1 = Except.ok fallbackVersion := by
  rcases ht : tryFiles e (version_files e) with ⟨o, tr⟩
  have h1 := tryFiles_fst e (version_files e)
  rw [ht] at h1
  have hf : (version_files e).find? e.pathExists = none := by
    rw [List.find?_eq_none]
    intro x hx
    simp [hnf x hx]
  rw [hf] at h1
  simp only [Option.map] at h1
  subst h1
  rcases hfail with hg | ⟨r, hg, hrc⟩
  · simp [get_version, ht, hg]
  · simp [get_version, ht, hg, hrc]

/-- C4 witness. -/
theorem get_version_git_fail_witness :
    (get_version envGitFail).1 = Except.ok fallbackVersion :=
  get_version_git_fail envGitFail (fun _ _ => rfl)
    (Or.inr ⟨{ returncode := 128, stdout := "" }, rfl, by decide⟩)

/-- C5: once the file step has fallen through, any behaviour of the
subprocess step is swallowed: a raised exception or a non-zero exit falls
through to the hardcoded fallback, and in every case the caller receives a
string, never an error. -/
theorem get_version_swallows_subproc (e : Env)
    (hnf : ∀ vf ∈ version_files e, e.pathExists vf = false) :
    ((e.gitDescribe = Except.error () ∨
        ∃ r, e.gitDescribe = Except.ok r ∧ r.returncode ≠ 0) →
      (get_version e).1 = Except.ok fallbackVersion) ∧
    ∃ s, (get_version e).1 = Except.ok s := by
  rcases ht : tryFiles e (version_files e) with ⟨o, tr⟩
  have h1 := tryFiles_fst e (version_files e)
  rw [ht] at h1
  have hf : (version_files e).find? e.pathExists = none := by
    rw [List.find?_eq_none]
    intro x hx
    simp [hnf x hx]
  rw [hf] at h1
  simp only [Option.map] at h1
  subst h1
  constructor
  · rintro (hg | ⟨r, hg, hrc⟩)
    · simp [get_version, ht, hg]
    · simp [get_version, ht, hg, hrc]
  · rcases hg : e.gitDescribe with u | res
    · exact ⟨fallbackVersion, by simp [get_version, ht, hg]⟩
    · by_cases hz : res.returncode = 0
      · exact ⟨pyStrip res.stdout, by simp [get_version, ht, hg, hz]⟩
      · exact ⟨fallbackVersion, by simp [get_version, ht, hg, hz]⟩

/-- C5 witness. -/
theorem get_version_swallows_subproc_witness :
    (get_version envAllFail).1 = Except.ok fallbackVersion :=
  (get_version_swallows_subproc envAllFail (fun _ _ => rfl)).1 (Or.inl rfl)

/-- C6: the resolver is deterministic over its environment — two calls of
`get_version` on the same environment produce the same result (and the
same effect trace). -/
theorem get_version_deterministic (e : Env)
    (r₁ r₂ : Except Unit String × List Effect)
    (h₁ : get_version e = r₁) (h₂ : get_version e = r₂) : r₁ = r₂ :=
  h₁ ▸ h₂ ▸ rfl

/-- C6 witness. -/
theorem get_version_deterministic_witness :
    get_version envGitOk = get_version envGitOk :=
  get_version_deterministic envGitOk (get_version envGitOk)
    (get_version envGitOk) rfl rfl

/-- Recognises the subprocess-spawn effect. -/
def isSpawn : Effect → Bool
  | Effect.spawn _ => true
  | _ => false

/-- C7: a call of `get_version` performs only existence checks, file
reads, and at most one subprocess spawn; it never writes a file. -/
theorem get_version_frame (e : Env) :
    (∀ x ∈ (get_version e).2,
      (∃ p, x = Effect.pathCheck p) ∨ (∃ p, x = Effect.fileRead p) ∨
      (∃ c, x = Effect.spawn c)) ∧
    (get_version e).2.countP isSpawn ≤ 1 := by
  rcases ht : tryFiles e (version_files e) with ⟨o, tr⟩
  have heff : ∀ x ∈ tr,
      (∃ p, x = Effect.pathCheck p) ∨ (∃ p, x = Effect.fileRead p) := by
    intro x hx
    have h := tryFiles_effects e (version_files e) x
    rw [ht] at h
    exact h hx
  have hcount : tr.countP isSpawn = 0 := by
    rw [List.countP_eq_zero]
    intro x hx
    rcases heff x hx with ⟨p, hp⟩ | ⟨p, hp⟩ <;> simp [hp, isSpawn]
  rcases o with _ | r
  · have htr : (get_version e).2 = tr ++ [Effect.spawn gitCmd] := by
      rcases hg : e.gitDescribe with u | res
      · simp [get_version, ht, hg]
      · by_cases hz : res.returncode = 0 <;> simp [get_version, ht, hg, hz]
    constructor
    · intro x hx
      rw [htr] at hx
      rcases List.mem_append.mp hx with hx | hx
      · rcases heff x hx with ⟨p, hp⟩ | ⟨p, hp⟩
        · exact Or.inl ⟨p, hp⟩
        · exact Or.inr (Or.inl ⟨p, hp⟩)
      · simp at hx
        exact Or.inr (Or.inr ⟨gitCmd, hx⟩)
    · rw [htr, List.countP_append, hcount]
      decide
  · have htr : (get_version e).2 = tr := by simp [get_version, ht]
    constructor
    · intro x hx
      rw [htr] at hx
      rcases heff x hx with ⟨p, hp⟩ | ⟨p, hp⟩
      · exact Or.inl ⟨p, hp⟩
      · exact Or.inr (Or.inl ⟨p, hp⟩)
    · rw [htr, hcount]
      exact Nat.zero_le 1

/-- C8: evaluated in an environment where no candidate file exists and
the subprocess call raises, `get_version` returns exactly the string
`1.0.36`: the hardcoded fallback literal of the last line. -/
theorem get_version_fallback_literal :
    (get_version envAllFail).1 = Except.ok "1.0.36" := rfl

/-- C9: whenever the module-level code of `conf.py` produces a
configuration, its `release` equals its `version`: both are bound to the
result of the single `get_version()` call. -/
theorem conf_release_eq_version (e : Env) (c : Config)
    (h : (conf e).1 = Except.ok c) : c.release = c.version := by
  rcases hg : get_version e with ⟨v, tr⟩
  rcases v with u | s
  · simp [conf, hg] at h
  · simp only [conf, hg, Except.ok.injEq] at h
    rw [← h]

/-- C9 witness. -/
theorem conf_release_eq_version_witness :
    (Config.mk "PT" "Hadi Cahyadi" "2.3.4" "2.3.4").release =
      (Config.mk "PT" "Hadi Cahyadi" "2.3.4" "2.3.4").version :=
  conf_release_eq_version envFirstFile
    (Config.mk "PT" "Hadi Cahyadi" "2.3.4" "2.3.4") rfl

/-- `str.strip()` of an all-whitespace string is the empty string. -/
theorem pyStrip_eq_empty (s : String)
    (h : ∀ c ∈ s.data, pyWhitespace c = true) : pyStrip s = "" := by
  have h2 : s.data.dropWhile pyWhitespace = [] :=
    List.dropWhile_eq_nil_iff.mpr h
  simp [pyStrip, h2]

/-- C10: when the first existing candidate VERSION file contains only
whitespace (or nothing), `get_version` returns the empty string; it does
not fall through to the subprocess step or to the hardcoded fallback. -/
theorem get_version_blank_file (e : Env) (vf s : String)
    (hfind : (version_files e).find? e.pathExists = some vf)
    (hread : e.readFile vf = Except.ok s)
    (hblank : ∀ c ∈ s.data, pyWhitespace c = true) :
    (get_version e).1 = Except.ok "" ∧
    (∀ c, Effect.spawn c ∉ (get_version e).2) := by
  rcases ht : tryFiles e (version_files e) with ⟨o, tr⟩
  have h1 := tryFiles_fst e (version_files e)
  rw [ht, hfind] at h1
  simp only [Option.map, hread] at h1
  subst h1
  refine ⟨?_, ?_⟩
  · rw [pyStrip_eq_empty s hblank] at ht
    simp [get_version, ht]
  · intro c hc
    have hcl := tryFiles_effects e (version_files e) (Effect.spawn c)
    rw [ht] at hcl
    simp only [get_version, ht] at hc
    rcases hcl hc with ⟨p, hp⟩ | ⟨p, hp⟩ <;> exact Effect.noConfusion hp

/-- C10 witness. -/
theorem get_version_blank_file_witness :
    (get_version envBlankFile).1 = Except.ok "" :=
  (get_version_blank_file envBlankFile "docs/VERSION" "  \n" rfl rfl
    (by decide)).1

end PTConf
